import Mathlib

/-!
Verification of the signal/slot registry in `src/Signal.ts`.

The program is a synchronous publish/subscribe primitive: a `Signal` holds an
ordered list of slots (callback + context + removal handle); `emit` snapshots
the list, invokes every snapshotted callback in order and optionally feeds the
ordered result list to an aggregator.

Shallow embedding choices:
* JavaScript reference identity of callback functions and context objects is
  modelled by `Nat` identifiers; an omitted context (`undefined`) is `none`.
* Each slot object created by `add` is a fresh JavaScript object; its identity
  is modelled by the `id` field, drawn from a counter `nextId` threaded through
  the state.  `removeSlot` (the handle's `remove()`, which uses `indexOf`,
  i.e. `===` on the slot object) therefore searches by `id`.
* Listener behaviour during `emit` is an arbitrary function
  `behave : Slot → SignalState → Except E (SignalState × R)`: a callback may
  read and mutate the signal's slot list (through `add` / `remove` /
  `removeSlot`), return a value, or throw (`Except.error`).
* JavaScript promises, as consumed by the `AWAIT` aggregators, are modelled as
  settled outcomes `Except E T`; `Promise.all` returns the ordered value list
  when all succeed and the first rejection otherwise.
-/

namespace SignalModel

/-- A callback reference (JavaScript function identity). -/
abbrev Callback := Nat

/-- A context value: `none` is JavaScript `undefined` (the default when the
`context` argument is omitted), `some c` a real context object identity. -/
abbrev Context := Option Nat

/-- One registered slot, from interface `SignalSlot`: the callback reference,
the context binding, and (modelling JavaScript object identity of the slot
object itself) a unique `id`. -/
structure Slot where
  id : Nat
  callback : Callback
  context : Context
deriving DecidableEq, Repr

/-- The private state of a `Signal`: the ordered slot list `_slots`, plus the
freshness counter backing slot-object identity. -/
structure SignalState where
  slots : List Slot
  nextId : Nat
deriving DecidableEq, Repr

/-- A freshly constructed signal: `this._slots = []`. -/
def initState : SignalState := { slots := [], nextId := 0 }

namespace Signal

/-- The predicate of `findIndex((ctx) => ctx.callback === callback && ctx.context === context)`
used by `remove` and `has`. -/
def slotMatches (callback : Callback) (context : Context) (sl : Slot) : Bool :=
  sl.callback == callback && sl.context == context

/-- Source `Signal.add(callback, context?)`: builds a fresh slot object, pushes it at
the end of `_slots` and returns it (the removal handle). -/
def add (callback : Callback) (context : Context) (s : SignalState) :
    SignalState × Slot :=
  let slot : Slot := { id := s.nextId, callback := callback, context := context }
  ({ slots := s.slots ++ [slot], nextId := s.nextId + 1 }, slot)

/-- Source `Signal.remove(callback, context?)`: `findIndex` of the first slot whose
callback and context are both `===` the arguments; if found, `splice` it out
and return `true`, else return `false`. -/
def remove (callback : Callback) (context : Context) (s : SignalState) :
    SignalState × Bool :=
  match s.slots.findIdx? (slotMatches callback context) with
  | some i => ({ s with slots := s.slots.eraseIdx i }, true)
  | none => (s, false)

/-- Source `Signal.has(callback, context?)`: same lookup as `remove`, read-only. -/
def has (callback : Callback) (context : Context) (s : SignalState) : Bool :=
  (s.slots.findIdx? (slotMatches callback context)).isSome

/-- Source `Signal.removeSlot(slot)` (the target of the handle's `remove()`):
`indexOf(slot)` — reference identity on the slot object, i.e. its `id` — and
`splice` if found, silently doing nothing otherwise. -/
def removeSlot (slotId : Nat) (s : SignalState) : SignalState :=
  match s.slots.findIdx? (fun sl => sl.id == slotId) with
  | some i => { s with slots := s.slots.eraseIdx i }
  | none => s

end Signal

/-- The behaviour of the registered callbacks during one `emit`: given the slot
being invoked (its callback and context determine what the listener does) and
the signal state at that moment, either throw (`Except.error`) or return the
mutated state together with the listener's return value. -/
abbrev Behaviour (R E : Type) := Slot → SignalState → Except E (SignalState × R)

/-- Everything one `emit` call produces: the final signal state, the list of
slots actually invoked (in invocation order), their return values (in the same
order, the thrower excluded), and the exception, if one was thrown. -/
structure EmitResult (R E : Type) where
  state : SignalState
  invoked : List Slot
  results : List R
  err : Option E
deriving Repr

/-- The dispatch loop of `Signal.emit` over an already-taken snapshot:
`slots.map(slot => slot.callback.apply(slot.context, args))`, with a thrown
exception aborting the remaining invocations. -/
def runSlots (behave : Behaviour R E) : List Slot → SignalState → EmitResult R E
  | [], s => ⟨s, [], [], none⟩
  | sl :: rest, s =>
    match behave sl s with
    | .error e => ⟨s, [sl], [], some e⟩
    | .ok (s', r) =>
      let res := runSlots behave rest s'
      ⟨res.state, sl :: res.invoked, r :: res.results, res.err⟩

/-- Source `Signal.emit(...args)` up to the aggregator: `const slots = this._slots.slice()`
(the snapshot) followed by the dispatch loop over that snapshot. -/
def emit (behave : Behaviour R E) (s : SignalState) : EmitResult R E :=
  runSlots behave s.slots s

/-- Source `Signal.emit` of a signal constructed with aggregator `agg`: if no
invocation threw, the aggregator is applied once to the full ordered result
list and its output returned; a thrown exception propagates instead. -/
def emitWith (agg : List R → R2) (behave : Behaviour R E) (s : SignalState) :
    Except E (SignalState × R2) :=
  let res := emit behave s
  match res.err with
  | some e => .error e
  | none => .ok (res.state, agg res.results)

namespace Aggregators

/-- Source `Aggregators.ARRAY`: the pass-through aggregator, returns the result array
unchanged. -/
def ARRAY (items : List T) : List T := items

/-- Modelled platform primitive `Promise.all`: on a list of settled promises,
the ordered list of resolved values if all succeeded, else the first
rejection. -/
def promiseAll : List (Except E T) → Except E (List T)
  | [] => .ok []
  | .error e :: _ => .error e
  | .ok v :: rest => (promiseAll rest).map (v :: ·)

/-- Source `Aggregators.AWAIT`: `Promise.all(items)` — awaits every promise and
returns the ordered resolved values, failing with the first rejection. -/
def AWAIT (items : List (Except E T)) : Except E (List T) :=
  promiseAll items

/-- Source `Aggregators.AWAIT_VOID`: `await Promise.all(items)` with the resolved
values discarded. -/
def AWAIT_VOID (items : List (Except E Unit)) : Except E Unit :=
  (promiseAll items).map (fun _ => ())

end Aggregators

/-- One externally invokable mutating operation, for describing the reachable
states of a signal: `Signal.add`, `Signal.remove`, or a removal handle's
`remove()` (which calls `removeSlot` on the slot object identified by
`slotId`). -/
inductive Op where
  | add (callback : Callback) (context : Context)
  | remove (callback : Callback) (context : Context)
  | removeSlot (slotId : Nat)
deriving DecidableEq, Repr

/-- Apply one operation to the signal state (return values discarded). -/
def applyOp (s : SignalState) : Op → SignalState
  | .add cb ctx => (Signal.add cb ctx s).1
  | .remove cb ctx => (Signal.remove cb ctx s).1
  | .removeSlot i => Signal.removeSlot i s

/-- Replay a sequence of operations from a given state. -/
def applyOps (s : SignalState) : List Op → SignalState
  | [] => s
  | op :: rest => applyOps (applyOp s op) rest

/-- The slot objects created by the `add` operations of a replay, in creation
order. -/
def addedSlots (s : SignalState) : List Op → List Slot
  | [] => []
  | op :: rest =>
    match op with
    | .add cb ctx => (Signal.add cb ctx s).2 :: addedSlots (applyOp s op) rest
    | _ => addedSlots (applyOp s op) rest

/-- Well-formedness of a signal state: every registered slot object was created
before the current freshness counter, and no slot object appears twice in the
list.  This is the model-level rendering of "each `add` creates a brand new
slot object". -/
def Wf (s : SignalState) : Prop :=
  (∀ sl ∈ s.slots, sl.id < s.nextId) ∧ (s.slots.map Slot.id).Nodup

instance (s : SignalState) : Decidable (Wf s) := by
  unfold Wf
  infer_instance

/-- Whether an operation is capable of removing the given slot: a by-value
`remove` whose callback and context both match, or the slot's own handle. -/
def opRemoves (op : Op) (sl : Slot) : Bool :=
  match op with
  | .add _ _ => false
  | .remove cb ctx => Signal.slotMatches cb ctx sl
  | .removeSlot i => sl.id == i

/-! ### Helper lemmas about the list primitives used by `remove` / `removeSlot` -/

theorem findIdx?_first_match {α : Type} (p : α → Bool) (l1 : List α) (x : α)
    (l2 : List α) (h1 : ∀ y ∈ l1, p y = false) (hx : p x = true) :
    (l1 ++ x :: l2).findIdx? p = some l1.length := by
  rw [List.findIdx?_append, List.findIdx?_eq_none_iff.mpr h1]
  simp [List.findIdx?_cons, hx]

theorem eraseIdx_middle {α : Type} (l1 : List α) (x : α) (l2 : List α) :
    (l1 ++ x :: l2).eraseIdx l1.length = l1 ++ l2 := by
  rw [List.eraseIdx_append_of_length_le (Nat.le_refl _)]
  simp

theorem mem_eraseIdx_of_find_ne {α : Type} {p : α → Bool} {l : List α} {i : Nat}
    {x : α} (hf : l.findIdx? p = some i) (hx : x ∈ l) (hpx : p x = false) :
    x ∈ l.eraseIdx i := by
  obtain ⟨hi, hpi, _⟩ := List.findIdx?_eq_some_iff_getElem.mp hf
  obtain ⟨j, hjl, hj⟩ := List.mem_iff_getElem.mp hx
  refine List.mem_eraseIdx_iff_getElem.mpr ⟨j, hjl, ?_, hj⟩
  intro hji
  subst hji
  rw [hj] at hpi
  simp [hpx] at hpi

/-! ### The state after one operation -/

theorem remove_slots_sublist (cb : Callback) (ctx : Context) (s : SignalState) :
    (Signal.remove cb ctx s).1.slots.Sublist s.slots := by
  unfold Signal.remove
  split
  · exact List.eraseIdx_sublist _ _
  · exact List.Sublist.refl _

theorem removeSlot_slots_sublist (i : Nat) (s : SignalState) :
    (Signal.removeSlot i s).slots.Sublist s.slots := by
  unfold Signal.removeSlot
  split
  · exact List.eraseIdx_sublist _ _
  · exact List.Sublist.refl _

theorem mem_slots_applyOp {s : SignalState} {sl : Slot} {op : Op}
    (hmem : sl ∈ s.slots) (hnr : opRemoves op sl = false) :
    sl ∈ (applyOp s op).slots := by
  cases op with
  | add cb ctx =>
    simp only [applyOp, Signal.add]
    exact List.mem_append_left _ hmem
  | remove cb ctx =>
    simp only [applyOp]
    unfold Signal.remove
    split
    · next i hf =>
      exact mem_eraseIdx_of_find_ne hf hmem (by simpa [opRemoves] using hnr)
    · exact hmem
  | removeSlot i =>
    simp only [applyOp]
    unfold Signal.removeSlot
    split
    · next j hf =>
      exact mem_eraseIdx_of_find_ne hf hmem (by simpa [opRemoves] using hnr)
    · exact hmem

theorem mem_slots_applyOps {s : SignalState} {sl : Slot} {ops : List Op}
    (hmem : sl ∈ s.slots) (h : ∀ op ∈ ops, opRemoves op sl = false) :
    sl ∈ (applyOps s ops).slots := by
  induction ops generalizing s with
  | nil => exact hmem
  | cons op rest ih =>
    exact ih (mem_slots_applyOp hmem (h op (List.mem_cons_self _ _)))
      (fun o ho => h o (List.mem_cons_of_mem _ ho))

theorem applyOps_append (s : SignalState) (l1 l2 : List Op) :
    applyOps s (l1 ++ l2) = applyOps (applyOps s l1) l2 := by
  induction l1 generalizing s with
  | nil => rfl
  | cons op rest ih => simp [applyOps, ih]

theorem applyOps_slots_sublist (s : SignalState) (ops : List Op) :
    (applyOps s ops).slots.Sublist (s.slots ++ addedSlots s ops) := by
  induction ops generalizing s with
  | nil => simp [applyOps, addedSlots]
  | cons op rest ih =>
    cases op with
    | add cb ctx =>
      have h := ih (applyOp s (.add cb ctx))
      simp only [applyOps, addedSlots]
      have heq : (applyOp s (Op.add cb ctx)).slots
          = s.slots ++ [(Signal.add cb ctx s).2] := rfl
      rw [heq] at h
      simpa [List.append_assoc] using h
    | remove cb ctx =>
      have h := ih (applyOp s (.remove cb ctx))
      simp only [applyOps, addedSlots]
      refine h.trans ?_
      exact List.Sublist.append_right (remove_slots_sublist cb ctx s) _
    | removeSlot i =>
      have h := ih (applyOp s (.removeSlot i))
      simp only [applyOps, addedSlots]
      refine h.trans ?_
      exact List.Sublist.append_right (removeSlot_slots_sublist i s) _

/-! ### Preservation of well-formedness -/

theorem wf_initState : Wf initState := by
  constructor <;> simp [initState]

theorem wf_applyOp {s : SignalState} (h : Wf s) (op : Op) : Wf (applyOp s op) := by
  obtain ⟨hbound, hnodup⟩ := h
  cases op with
  | add cb ctx =>
    constructor
    · intro sl hsl
      simp only [applyOp, Signal.add, List.mem_append, List.mem_singleton] at hsl
      rcases hsl with hsl | hsl
      · exact Nat.lt_succ_of_lt (hbound sl hsl)
      · subst hsl; exact Nat.lt_succ_self _
    · simp only [applyOp, Signal.add, List.map_append, List.map_cons, List.map_nil]
      rw [List.nodup_append]
      refine ⟨hnodup, List.nodup_singleton _, ?_⟩
      intro a ha hb
      simp only [List.mem_singleton] at hb
      obtain ⟨sl, hsl, rfl⟩ := List.mem_map.mp ha
      have := hbound sl hsl
      omega
  | remove cb ctx =>
    have hsub : (applyOp s (.remove cb ctx)).slots.Sublist s.slots :=
      remove_slots_sublist cb ctx s
    have hnext : (applyOp s (.remove cb ctx)).nextId = s.nextId := by
      simp only [applyOp]
      unfold Signal.remove
      split <;> rfl
    constructor
    · intro sl hsl
      rw [hnext]
      exact hbound sl (hsub.mem hsl)
    · exact (hsub.map Slot.id).nodup hnodup
  | removeSlot i =>
    have hsub : (applyOp s (.removeSlot i)).slots.Sublist s.slots :=
      removeSlot_slots_sublist i s
    have hnext : (applyOp s (.removeSlot i)).nextId = s.nextId := by
      simp only [applyOp]
      unfold Signal.removeSlot
      split <;> rfl
    constructor
    · intro sl hsl
      rw [hnext]
      exact hbound sl (hsub.mem hsl)
    · exact (hsub.map Slot.id).nodup hnodup

theorem wf_applyOps {s : SignalState} (h : Wf s) (ops : List Op) :
    Wf (applyOps s ops) := by
  induction ops generalizing s with
  | nil => exact h
  | cons op rest ih => exact ih (wf_applyOp h op)

/-! ### The dispatch loop -/

theorem runSlots_invoked_of_err_none {R E : Type} {behave : Behaviour R E}
    {l : List Slot} {s : SignalState}
    (h : (runSlots behave l s).err = none) : (runSlots behave l s).invoked = l := by
  induction l generalizing s with
  | nil => rfl
  | cons sl rest ih =>
    cases hb : behave sl s with
    | error e => simp [runSlots, hb] at h
    | ok p =>
      simp only [runSlots, hb] at h ⊢
      rw [ih h]

theorem runSlots_results_length_of_err_none {R E : Type} {behave : Behaviour R E}
    {l : List Slot} {s : SignalState}
    (h : (runSlots behave l s).err = none) :
    (runSlots behave l s).results.length = l.length := by
  induction l generalizing s with
  | nil => rfl
  | cons sl rest ih =>
    cases hb : behave sl s with
    | error e => simp [runSlots, hb] at h
    | ok p =>
      simp only [runSlots, hb] at h ⊢
      simp [ih h]

theorem runSlots_err_some {R E : Type} {behave : Behaviour R E}
    {l : List Slot} {s : SignalState} {e : E}
    (h : (runSlots behave l s).err = some e) :
    (∃ rest, l = (runSlots behave l s).invoked ++ rest) ∧
      (runSlots behave l s).results.length + 1 = (runSlots behave l s).invoked.length := by
  induction l generalizing s with
  | nil => simp [runSlots] at h
  | cons sl rest ih =>
    cases hb : behave sl s with
    | error e' =>
      simp only [runSlots, hb]
      exact ⟨⟨rest, rfl⟩, rfl⟩
    | ok p =>
      simp only [runSlots, hb] at h ⊢
      obtain ⟨⟨tail, htail⟩, hlen⟩ := ih h
      refine ⟨⟨tail, ?_⟩, ?_⟩
      · rw [List.cons_append, ← htail]
      · simp only [List.length_cons]
        omega

theorem runSlots_pure {R E : Type} (f : Slot → R) (l : List Slot) (s : SignalState) :
    runSlots (E := E) (fun sl st => .ok (st, f sl)) l s = ⟨s, l, l.map f, none⟩ := by
  induction l generalizing s with
  | nil => rfl
  | cons sl rest ih => simp [runSlots, ih]

/-! ### The `AWAIT` aggregators -/

theorem promiseAll_all_ok {E T : Type} (l : List T) :
    Aggregators.promiseAll (E := E) (l.map Except.ok) = .ok l := by
  induction l with
  | nil => rfl
  | cons v rest ih => simp [Aggregators.promiseAll, ih, Except.map]

theorem promiseAll_first_error {E T : Type} (l : List T) (e : E)
    (rest : List (Except E T)) :
    Aggregators.promiseAll (l.map Except.ok ++ .error e :: rest) = .error e := by
  induction l with
  | nil => rfl
  | cons v tail ih => simp [Aggregators.promiseAll, ih, Except.map]

/-! ### Small characterization lemmas for the `match`-shaped definitions -/

theorem removeSlot_eq_of_findIdx? {s : SignalState} {i j : Nat}
    (h : s.slots.findIdx? (fun sl => sl.id == i) = some j) :
    Signal.removeSlot i s = { s with slots := s.slots.eraseIdx j } := by
  unfold Signal.removeSlot
  rw [h]

theorem removeSlot_eq_self_of_none {s : SignalState} {i : Nat}
    (h : s.slots.findIdx? (fun sl => sl.id == i) = none) :
    Signal.removeSlot i s = s := by
  unfold Signal.removeSlot
  rw [h]

theorem remove_eq_of_none {s : SignalState} {cb : Callback} {ctx : Context}
    (h : s.slots.findIdx? (Signal.slotMatches cb ctx) = none) :
    Signal.remove cb ctx s = (s, false) := by
  unfold Signal.remove
  rw [h]

/-! ### Concrete scenarios used as witnesses and counterexamples -/

/-- Scenario for C1: two registered listeners; while being invoked, the first
one registers a brand-new listener (callback `5`) and removes the second
listener by value. -/
def c1Behave : Behaviour Unit Unit := fun sl st =>
  if sl.id == 0 then .ok ((Signal.remove 1 none (Signal.add 5 none st).1).1, ())
  else .ok (st, ())

/-- Initial state for the C1 scenario: two slots, callbacks `0` and `1`. -/
def c1State : SignalState := { slots := [⟨0, 0, none⟩, ⟨1, 1, none⟩], nextId := 2 }

/-- Scenario for C2: while being invoked, the first listener removes the
not-yet-invoked second listener by value. -/
def c2Behave : Behaviour Unit Unit := fun sl st =>
  if sl.id == 0 then .ok ((Signal.remove 1 none st).1, ())
  else .ok (st, ())

/-- Initial state for the C2 scenario: two slots, callbacks `0` and `1`. -/
def c2State : SignalState := { slots := [⟨0, 0, none⟩, ⟨1, 1, none⟩], nextId := 2 }

/-- Scenario for C8: three registered listeners; the second one throws `42`,
the others return their callback number. -/
def c8Behave : Behaviour Nat Nat := fun sl st =>
  if sl.id == 1 then .error 42 else .ok (st, sl.callback)

/-- Initial state for the C8 scenario: three slots, callbacks `0`, `1`, `2`. -/
def c8State : SignalState :=
  { slots := [⟨0, 0, none⟩, ⟨1, 1, none⟩, ⟨2, 2, none⟩], nextId := 3 }

/-! ### The claims -/

/-- C1: for every emit call that completes without a listener throwing, the
listeners invoked are exactly — and in registration order — the slots present
when `emit` began: `emit`'s snapshot makes additions and removals performed by
listeners during the emit invisible to the in-flight dispatch (an added slot
is not invoked, a removed-but-snapshotted slot is still invoked). -/
theorem emit_snapshot_determines_invocations {R E : Type} (behave : Behaviour R E)
    (s : SignalState) (h : (emit behave s).err = none) :
    (emit behave s).invoked = s.slots :=
  runSlots_invoked_of_err_none h

/-- Witness for C1: in the concrete scenario where listener `0` adds a new slot
and removes listener `1` mid-emit, the invoked list is still exactly the
two-slot snapshot. -/
theorem emit_snapshot_determines_invocations_witness :
    (emit c1Behave c1State).err = none ∧
    (emit c1Behave c1State).invoked = c1State.slots :=
  ⟨by decide, emit_snapshot_determines_invocations c1Behave c1State (by decide)⟩

/-- C2 counterexample: in the concrete scenario where listener `0` removes the
not-yet-invoked listener `1` during the emit, slot `⟨1,1,none⟩` is gone from
the registry by the end of the emit (it was excised before its turn came) and
yet it IS invoked in that same emit call — the code's snapshot semantics
contradicts the claim. -/
theorem removed_slot_still_invoked_cex :
    (⟨1, 1, none⟩ : Slot) ∉ (emit c2Behave c2State).state.slots ∧
    (⟨1, 1, none⟩ : Slot) ∈ (emit c2Behave c2State).invoked := by
  decide

/-- C2 amended: if, during an emit call, a listener removes a slot that has not
yet been invoked in that same emit call, the removed slot is nevertheless still
invoked in that emit call (removal only affects later emits): every slot
registered when the emit began is invoked, provided no listener throws. -/
theorem snapshotted_slot_invoked_despite_removal {R E : Type}
    (behave : Behaviour R E) (s : SignalState) (sl : Slot)
    (h : (emit behave s).err = none) (hmem : sl ∈ s.slots) :
    sl ∈ (emit behave s).invoked := by
  show sl ∈ (runSlots behave s.slots s).invoked
  rw [runSlots_invoked_of_err_none h]
  exact hmem

/-- Witness for the amended C2, on the concrete removal-during-emit scenario. -/
theorem snapshotted_slot_invoked_despite_removal_witness :
    (emit c2Behave c2State).err = none ∧
    (⟨1, 1, none⟩ : Slot) ∈ c2State.slots ∧
    (⟨1, 1, none⟩ : Slot) ∈ (emit c2Behave c2State).invoked :=
  ⟨by decide, by decide,
    snapshotted_slot_invoked_despite_removal c2Behave c2State ⟨1, 1, none⟩
      (by decide) (by decide)⟩

/-- C3 counterexample: after the reachable operation sequence
`add(0); add(0)` the slot sequence holds two distinct entries whose callback
references and whose context values are identical — `add` permits duplicate
(callback, context) pairs, so the claimed invariant fails. -/
theorem duplicate_pair_reachable_cex :
    ∃ i j : Fin (applyOps initState [Op.add 0 none, Op.add 0 none]).slots.length,
      i ≠ j ∧
      ((applyOps initState [Op.add 0 none, Op.add 0 none]).slots.get i).callback =
        ((applyOps initState [Op.add 0 none, Op.add 0 none]).slots.get j).callback ∧
      ((applyOps initState [Op.add 0 none, Op.add 0 none]).slots.get i).context =
        ((applyOps initState [Op.add 0 none, Op.add 0 none]).slots.get j).context := by
  decide

/-- C3 amended: at every reachable state of a Signal, the slot sequence never
contains the same slot object twice (slot-object identities are pairwise
distinct); entries that merely coincide in callback and context — duplicates —
are permitted and reachable. -/
theorem slot_objects_never_duplicated (ops : List Op) :
    ((applyOps initState ops).slots.map Slot.id).Nodup :=
  (wf_applyOps wf_initState ops).2

/-- C4: after any sequence of `add` / `remove` / handle-`remove()` operations,
the slots view holds only slots that were added, in their original insertion
order (it is a sublist of the add-order list), and any added slot that no
subsequent operation could remove — no matching by-value `remove`, no
`removeSlot` with its identity — is still present. -/
theorem slots_view_exactly_surviving_adds (ops : List Op) :
    (applyOps initState ops).slots.Sublist (addedSlots initState ops) ∧
    ∀ ops2 sl, sl ∈ (applyOps initState ops).slots →
      (∀ op ∈ ops2, opRemoves op sl = false) →
      sl ∈ (applyOps initState (ops ++ ops2)).slots := by
  constructor
  · have h := applyOps_slots_sublist initState ops
    simpa [initState] using h
  · intro ops2 sl hmem hnr
    rw [applyOps_append]
    exact mem_slots_applyOps hmem hnr

/-- Witness for C4, on a concrete history with one removal followed by three
further operations that do not target the surviving slot. -/
theorem slots_view_exactly_surviving_adds_witness :
    (applyOps initState [Op.add 0 none, Op.add 1 none, Op.remove 0 none]).slots.Sublist
      (addedSlots initState [Op.add 0 none, Op.add 1 none, Op.remove 0 none]) ∧
    (⟨1, 1, none⟩ : Slot) ∈ (applyOps initState
      ([Op.add 0 none, Op.add 1 none, Op.remove 0 none] ++
        [Op.add 2 none, Op.remove 0 none, Op.removeSlot 5])).slots :=
  ⟨(slots_view_exactly_surviving_adds _).1,
    (slots_view_exactly_surviving_adds [Op.add 0 none, Op.add 1 none, Op.remove 0 none]).2
      [Op.add 2 none, Op.remove 0 none, Op.removeSlot 5] ⟨1, 1, none⟩
      (by decide) (by decide)⟩

/-- C5: `remove(callback, context)` excises exactly the earliest slot whose
callback and context both match the arguments and returns `true`; when nothing
matches it returns `false` and leaves the sequence unchanged.  Because only the
earliest match is excised, a second identical `remove` removes the next
duplicate. -/
theorem remove_excises_first_match_only (s : SignalState) (cb : Callback)
    (ctx : Context) :
    (∀ l1 sl l2, s.slots = l1 ++ sl :: l2 →
        (∀ x ∈ l1, Signal.slotMatches cb ctx x = false) →
        Signal.slotMatches cb ctx sl = true →
        Signal.remove cb ctx s = ({ s with slots := l1 ++ l2 }, true)) ∧
    ((∀ x ∈ s.slots, Signal.slotMatches cb ctx x = false) →
      Signal.remove cb ctx s = (s, false)) := by
  constructor
  · intro l1 sl l2 hdec h1 hx
    unfold Signal.remove
    rw [hdec, findIdx?_first_match _ l1 sl l2 h1 hx]
    simp [eraseIdx_middle]
  · intro hall
    exact remove_eq_of_none (List.findIdx?_eq_none_iff.mpr hall)

/-- Witness for C5: with two duplicate `(5, none)` slots registered, the first
`remove` excises the earliest duplicate, the second `remove` excises the next
one, and a `remove` of an unregistered callback returns `false` and changes
nothing. -/
theorem remove_excises_first_match_only_witness :
    Signal.remove 5 none ⟨[⟨0, 5, none⟩, ⟨1, 5, none⟩], 2⟩ = (⟨[⟨1, 5, none⟩], 2⟩, true) ∧
    Signal.remove 5 none ⟨[⟨1, 5, none⟩], 2⟩ = (⟨[], 2⟩, true) ∧
    Signal.remove 9 none ⟨[⟨1, 5, none⟩], 2⟩ = (⟨[⟨1, 5, none⟩], 2⟩, false) := by
  refine ⟨?_, ?_, ?_⟩
  · have h := (remove_excises_first_match_only ⟨[⟨0, 5, none⟩, ⟨1, 5, none⟩], 2⟩ 5 none).1
      [] ⟨0, 5, none⟩ [⟨1, 5, none⟩] rfl (by decide) (by decide)
    simpa using h
  · have h := (remove_excises_first_match_only ⟨[⟨1, 5, none⟩], 2⟩ 5 none).1
      [] ⟨1, 5, none⟩ [] rfl (by decide) (by decide)
    simpa using h
  · exact (remove_excises_first_match_only ⟨[⟨1, 5, none⟩], 2⟩ 9 none).2 (by decide)

/-- C6: slot removal is idempotent and total.  On any well-formed state, `add`
immediately followed by the returned handle's `remove()` (`removeSlot` on the
fresh slot object) restores the slot view exactly; invoking the same handle's
`remove()` a second time changes nothing; and if the `(callback, context)` pair
is no longer registered, a by-value `remove` also changes nothing and reports
`false`.  All operations are total functions — no error is ever raised. -/
theorem add_remove_handle_no_residue (s : SignalState) (cb : Callback)
    (ctx : Context) (h : Wf s) :
    (Signal.removeSlot (Signal.add cb ctx s).2.id (Signal.add cb ctx s).1).slots
      = s.slots ∧
    Signal.removeSlot (Signal.add cb ctx s).2.id
        (Signal.removeSlot (Signal.add cb ctx s).2.id (Signal.add cb ctx s).1)
      = Signal.removeSlot (Signal.add cb ctx s).2.id (Signal.add cb ctx s).1 ∧
    (Signal.has cb ctx s = false →
      Signal.remove cb ctx
          (Signal.removeSlot (Signal.add cb ctx s).2.id (Signal.add cb ctx s).1)
        = (Signal.removeSlot (Signal.add cb ctx s).2.id (Signal.add cb ctx s).1,
            false)) := by
  obtain ⟨hbound, hnodup⟩ := h
  have h1 : ∀ y ∈ s.slots, (y.id == s.nextId) = false := by
    intro y hy
    have hlt := hbound y hy
    simp [Nat.ne_of_lt hlt]
  have hfind : (Signal.add cb ctx s).1.slots.findIdx? (fun sl => sl.id == s.nextId)
      = some s.slots.length := by
    show (s.slots ++ (⟨s.nextId, cb, ctx⟩ : Slot) :: []).findIdx? _ = _
    exact findIdx?_first_match _ s.slots _ [] h1 (by simp)
  have hslots : (Signal.add cb ctx s).1.slots.eraseIdx s.slots.length = s.slots := by
    show (s.slots ++ (⟨s.nextId, cb, ctx⟩ : Slot) :: []).eraseIdx s.slots.length = s.slots
    rw [eraseIdx_middle]
    exact List.append_nil _
  have hkey : Signal.removeSlot (Signal.add cb ctx s).2.id (Signal.add cb ctx s).1
      = { slots := s.slots, nextId := s.nextId + 1 } := by
    rw [show (Signal.add cb ctx s).2.id = s.nextId from rfl,
      removeSlot_eq_of_findIdx? hfind, hslots]
    rfl
  refine ⟨by rw [hkey], ?_, ?_⟩
  · rw [hkey]
    exact removeSlot_eq_self_of_none (List.findIdx?_eq_none_iff.mpr h1)
  · intro hhas
    rw [hkey]
    have hnone : s.slots.findIdx? (Signal.slotMatches cb ctx) = none := by
      simpa [Signal.has] using hhas
    exact remove_eq_of_none hnone

/-- Witness for C6 on a one-slot state: adding callback `4` and removing it via
its handle leaves the original slot view; the second handle removal and a
by-value removal of the now-absent pair are no-ops. -/
theorem add_remove_handle_no_residue_witness :
    Wf ⟨[⟨0, 3, some 1⟩], 1⟩ ∧
    Signal.has 4 none ⟨[⟨0, 3, some 1⟩], 1⟩ = false ∧
    (Signal.removeSlot (Signal.add 4 none ⟨[⟨0, 3, some 1⟩], 1⟩).2.id
        (Signal.add 4 none ⟨[⟨0, 3, some 1⟩], 1⟩).1).slots = [⟨0, 3, some 1⟩] ∧
    Signal.remove 4 none
        (Signal.removeSlot (Signal.add 4 none ⟨[⟨0, 3, some 1⟩], 1⟩).2.id
          (Signal.add 4 none ⟨[⟨0, 3, some 1⟩], 1⟩).1)
      = (Signal.removeSlot (Signal.add 4 none ⟨[⟨0, 3, some 1⟩], 1⟩).2.id
          (Signal.add 4 none ⟨[⟨0, 3, some 1⟩], 1⟩).1, false) := by
  refine ⟨by decide, by decide, ?_, ?_⟩
  · exact (add_remove_handle_no_residue ⟨[⟨0, 3, some 1⟩], 1⟩ 4 none (by decide)).1
  · exact (add_remove_handle_no_residue ⟨[⟨0, 3, some 1⟩], 1⟩ 4 none (by decide)).2.2
      (by decide)

/-- C7: with the array-passthrough aggregator and listeners that neither throw
nor mutate the signal (each returning `f slot`), `emit` returns exactly the
ordered per-listener result list `s.slots.map f` — one element per registered
slot, position-for-position the listener's return value — and for an arbitrary
aggregator, `emit` returns the aggregator applied (in one call) to that same
full ordered list. -/
theorem emit_array_aggregator_collects_all_results {R R2 E : Type}
    (f : Slot → R) (s : SignalState) (agg : List R → R2) :
    emitWith (E := E) Aggregators.ARRAY (fun sl st => .ok (st, f sl)) s
      = .ok (s, s.slots.map f) ∧
    (s.slots.map f).length = s.slots.length ∧
    emitWith (E := E) agg (fun sl st => .ok (st, f sl)) s
      = .ok (s, agg (s.slots.map f)) := by
  have hrun := runSlots_pure (E := E) f s.slots s
  refine ⟨?_, List.length_map _ _, ?_⟩
  · simp only [emitWith, emit, hrun, Aggregators.ARRAY]
  · simp only [emitWith, emit, hrun]

/-- C8: if the dispatch loop of an emit call throws, the invoked listeners form
an initial segment of the snapshot (no listener after the thrower is invoked),
exactly the listeners before the thrower produced results, and — whatever the
configured aggregator is — the aggregator's output is never produced: the same
failure propagates to the emit caller. -/
theorem listener_throw_aborts_emission {R R2 E : Type} (agg : List R → R2)
    (behave : Behaviour R E) (s : SignalState) (e : E)
    (h : (emit behave s).err = some e) :
    (∃ rest, s.slots = (emit behave s).invoked ++ rest) ∧
    (emit behave s).results.length + 1 = (emit behave s).invoked.length ∧
    emitWith agg behave s = .error e := by
  obtain ⟨hdec, hlen⟩ := runSlots_err_some (l := s.slots) (s := s) h
  refine ⟨hdec, hlen, ?_⟩
  simp only [emitWith]
  rw [h]

/-- Witness for C8: with three listeners of which the second throws `42`, only
the first two are invoked, one result is collected, and the array aggregator is
bypassed in favour of the propagated failure. -/
theorem listener_throw_aborts_emission_witness :
    (emit c8Behave c8State).err = some 42 ∧
    (∃ rest, c8State.slots = (emit c8Behave c8State).invoked ++ rest) ∧
    (emit c8Behave c8State).results.length + 1 = (emit c8Behave c8State).invoked.length ∧
    emitWith Aggregators.ARRAY c8Behave c8State = .error 42 :=
  ⟨by decide,
    listener_throw_aborts_emission Aggregators.ARRAY c8Behave c8State 42 (by decide)⟩

/-- C9: the await-all aggregators over settled deferred results: on an all-ok
list `AWAIT` resolves to the ordered value list (e.g. `[1,2,3]`), and when a
failing element follows the successful ones, `AWAIT` fails with that same
failure; `AWAIT_VOID` succeeds and fails in exactly the same situations but
resolves to no meaningful value (`()`). -/
theorem await_aggregators_first_failure {E T : Type} (l1 : List T) (e : E)
    (rest : List (Except E T)) (u1 : List Unit) (rest2 : List (Except E Unit)) :
    Aggregators.AWAIT (E := E) (l1.map Except.ok) = .ok l1 ∧
    Aggregators.AWAIT (l1.map Except.ok ++ .error e :: rest) = .error e ∧
    Aggregators.AWAIT_VOID (E := E) (u1.map Except.ok) = .ok () ∧
    Aggregators.AWAIT_VOID (u1.map Except.ok ++ .error e :: rest2) = .error e := by
  refine ⟨promiseAll_all_ok l1, promiseAll_first_error l1 e rest, ?_, ?_⟩
  · unfold Aggregators.AWAIT_VOID
    rw [promiseAll_all_ok u1]
    rfl
  · unfold Aggregators.AWAIT_VOID
    rw [promiseAll_first_error u1 e rest2]
    rfl

/-- C10: when two slots with an identical `(callback, context)` pair are
registered (here by two consecutive `add`s on a well-formed state), the two
returned handles denote distinct slot objects, and each handle's `remove()`
excises exactly the slot object created by its own `add` — the second handle
removes the later duplicate while the earlier duplicate stays registered, and
vice versa. -/
theorem handle_removes_own_slot_among_duplicates (s : SignalState) (cb : Callback)
    (ctx : Context) (h : Wf s) :
    (Signal.add cb ctx s).2.callback
      = (Signal.add cb ctx (Signal.add cb ctx s).1).2.callback ∧
    (Signal.add cb ctx s).2.context
      = (Signal.add cb ctx (Signal.add cb ctx s).1).2.context ∧
    (Signal.add cb ctx s).2 ≠ (Signal.add cb ctx (Signal.add cb ctx s).1).2 ∧
    (Signal.removeSlot (Signal.add cb ctx (Signal.add cb ctx s).1).2.id
        (Signal.add cb ctx (Signal.add cb ctx s).1).1).slots
      = s.slots ++ [(Signal.add cb ctx s).2] ∧
    (Signal.removeSlot (Signal.add cb ctx s).2.id
        (Signal.add cb ctx (Signal.add cb ctx s).1).1).slots
      = s.slots ++ [(Signal.add cb ctx (Signal.add cb ctx s).1).2] := by
  obtain ⟨hbound, hnodup⟩ := h
  have hne : (⟨s.nextId, cb, ctx⟩ : Slot) ≠ ⟨s.nextId + 1, cb, ctx⟩ := by
    simp
  have hB : ∀ y ∈ s.slots ++ [(⟨s.nextId, cb, ctx⟩ : Slot)],
      (y.id == s.nextId + 1) = false := by
    intro y hy
    rcases List.mem_append.mp hy with hy | hy
    · have hlt := hbound y hy
      simp [Nat.ne_of_lt (Nat.lt_succ_of_lt hlt)]
    · simp only [List.mem_singleton] at hy
      subst hy
      simp
  have hA : ∀ y ∈ s.slots, (y.id == s.nextId) = false := by
    intro y hy
    have hlt := hbound y hy
    simp [Nat.ne_of_lt hlt]
  have hfindB : (Signal.add cb ctx (Signal.add cb ctx s).1).1.slots.findIdx?
      (fun sl => sl.id == s.nextId + 1) = some (s.slots ++ [(⟨s.nextId, cb, ctx⟩ : Slot)]).length := by
    show ((s.slots ++ [(⟨s.nextId, cb, ctx⟩ : Slot)])
        ++ (⟨s.nextId + 1, cb, ctx⟩ : Slot) :: []).findIdx? _ = _
    exact findIdx?_first_match _ _ _ [] hB (by simp)
  have hfindA : (Signal.add cb ctx (Signal.add cb ctx s).1).1.slots.findIdx?
      (fun sl => sl.id == s.nextId) = some s.slots.length := by
    show ((s.slots ++ [(⟨s.nextId, cb, ctx⟩ : Slot)])
        ++ [(⟨s.nextId + 1, cb, ctx⟩ : Slot)]).findIdx? _ = _
    rw [List.append_assoc]
    exact findIdx?_first_match _ s.slots _ _ hA (by simp)
  refine ⟨rfl, rfl, hne, ?_, ?_⟩
  · rw [show (Signal.add cb ctx (Signal.add cb ctx s).1).2.id = s.nextId + 1 from rfl,
      removeSlot_eq_of_findIdx? hfindB]
    show ((s.slots ++ [(⟨s.nextId, cb, ctx⟩ : Slot)])
        ++ (⟨s.nextId + 1, cb, ctx⟩ : Slot) :: []).eraseIdx
          (s.slots ++ [(⟨s.nextId, cb, ctx⟩ : Slot)]).length
        = s.slots ++ [(⟨s.nextId, cb, ctx⟩ : Slot)]
    rw [eraseIdx_middle]
    exact List.append_nil _
  · rw [show (Signal.add cb ctx s).2.id = s.nextId from rfl,
      removeSlot_eq_of_findIdx? hfindA]
    show ((s.slots ++ [(⟨s.nextId, cb, ctx⟩ : Slot)])
        ++ [(⟨s.nextId + 1, cb, ctx⟩ : Slot)]).eraseIdx s.slots.length = _
    rw [List.append_assoc]
    show (s.slots ++ (⟨s.nextId, cb, ctx⟩ : Slot)
        :: [(⟨s.nextId + 1, cb, ctx⟩ : Slot)]).eraseIdx s.slots.length
        = s.slots ++ [(⟨s.nextId + 1, cb, ctx⟩ : Slot)]
    rw [eraseIdx_middle]

/-- Witness for C10: two duplicate `(7, some 2)` registrations on the fresh
signal; the later handle removes only the later slot object, the earlier
handle only the earlier one. -/
theorem handle_removes_own_slot_among_duplicates_witness :
    Wf initState ∧
    (Signal.removeSlot (Signal.add 7 (some 2) (Signal.add 7 (some 2) initState).1).2.id
        (Signal.add 7 (some 2) (Signal.add 7 (some 2) initState).1).1).slots
      = [⟨0, 7, some 2⟩] ∧
    (Signal.removeSlot (Signal.add 7 (some 2) initState).2.id
        (Signal.add 7 (some 2) (Signal.add 7 (some 2) initState).1).1).slots
      = [⟨1, 7, some 2⟩] := by
  refine ⟨by decide, ?_, ?_⟩
  · exact (handle_removes_own_slot_among_duplicates initState 7 (some 2)
      (by decide)).2.2.2.1
  · exact (handle_removes_own_slot_among_duplicates initState 7 (some 2)
      (by decide)).2.2.2.2

end SignalModel
